import Mathlib

/-!
Shallow embedding of the `fenix-university-registry` NEAR contract
(`src/src/lib.rs`) and proofs of the specification's claims about it.

The contract stores two persistent `UnorderedMap`s:
`universities_accounts : account_id -> University` and
`universities_by_name : name -> Vec<University>`.  A NEAR `UnorderedMap`
behaves, for the operations this contract uses (`get`, `insert`,
`to_vec`), like an association list in which inserting an existing key
overwrites its value in place and inserting a fresh key appends the pair
at the end; `to_vec` enumerates in that key order.  We model it as
`List (String × α)` with exactly those `get` and `insert` operations.

The host environment supplies the caller (`env::signer_account_id()`)
and the owner (`env::current_account_id()`); the code only compares
them, so both are plain strings here.  `require!` panics are modelled
by `Except RegError`; the host aborts the whole call on panic, so a
failing call leaves the state unchanged (`runCall` keeps the old state
on `.error`).
-/

namespace FenixRegistry

open List

/-- A university record: the `University` struct of the contract. -/
structure University where
  name : String
  account_id : String
deriving DecidableEq, Repr

/-- Failure reasons of `add_university`: the two `require!` panics,
`"Permission denied"` and `"Account already exists"`. -/
inductive RegError where
  | permissionDenied
  | duplicateAccount
deriving DecidableEq, Repr

namespace AMap

/-- `UnorderedMap::get`: value stored under key `k`, if any. -/
def get {α : Type} : List (String × α) → String → Option α
  | [], _ => none
  | (k1, v1) :: rest, k => if k1 = k then some v1 else get rest k

/-- `UnorderedMap::insert`: overwrite the value of an existing key in
place, or append a fresh key at the end. -/
def insert {α : Type} : List (String × α) → String → α → List (String × α)
  | [], k, v => [(k, v)]
  | (k1, v1) :: rest, k, v =>
      if k1 = k then (k, v) :: rest else (k1, v1) :: insert rest k v

end AMap

/-- The contract state `UniversityRegistry`: both indices. -/
structure UniversityRegistry where
  universities_accounts : List (String × University)
  universities_by_name : List (String × List University)
deriving DecidableEq, Repr

/-- `Default::default()`: both maps empty. -/
def UniversityRegistry.empty : UniversityRegistry := ⟨[], []⟩

/-- The private helper `add_university_by_name`: fetch the current
sequence for the university's name (or start a fresh one) and write it
back with the record appended. -/
def add_university_by_name (s : UniversityRegistry) (university : University) :
    UniversityRegistry :=
  match AMap.get s.universities_by_name university.name with
  | none =>
      { s with universities_by_name :=
          AMap.insert s.universities_by_name university.name [university] }
  | some us =>
      { s with universities_by_name :=
          AMap.insert s.universities_by_name university.name (us ++ [university]) }

/-- `add_university`: require the signer to be the contract account,
require the account id to be fresh, then insert into
`universities_accounts` and append into `universities_by_name`,
returning the new record. `signer` is `env::signer_account_id()` and
`current` is `env::current_account_id()`. -/
def add_university (signer current : String) (s : UniversityRegistry)
    (name account_id : String) :
    Except RegError (University × UniversityRegistry) :=
  if signer = current then
    if (AMap.get s.universities_accounts account_id).isNone then
      let university : University := ⟨name, account_id⟩
      let s1 : UniversityRegistry :=
        { s with universities_accounts :=
            AMap.insert s.universities_accounts university.account_id university }
      Except.ok (university, add_university_by_name s1 university)
    else Except.error RegError.duplicateAccount
  else Except.error RegError.permissionDenied

/-- `get_all_universities`: `universities_accounts.to_vec()`. -/
def get_all_universities (s : UniversityRegistry) : List (String × University) :=
  s.universities_accounts

/-- `get_universities_by_name`: the sequence stored under `name`, or
empty when absent. -/
def get_universities_by_name (s : UniversityRegistry) (name : String) :
    List University :=
  match AMap.get s.universities_by_name name with
  | none => []
  | some us => us

/-- `get_university_by_account_id`: lookup in `universities_accounts`. -/
def get_university_by_account_id (s : UniversityRegistry) (account_id : String) :
    Option University :=
  AMap.get s.universities_accounts account_id

/-- One external `register` request: the host-supplied signer identity
plus the two arguments. -/
structure Call where
  signer : String
  name : String
  account_id : String
deriving DecidableEq, Repr

/-- Execute one call against the state; a panic aborts the call and the
host persists nothing, so the state is unchanged on error. -/
def runCall (owner : String) (s : UniversityRegistry) (c : Call) :
    UniversityRegistry :=
  match add_university c.signer owner s c.name c.account_id with
  | Except.ok (_, s1) => s1
  | Except.error _ => s

/-- Execute a sequence of calls in order. -/
def runCalls (owner : String) (s : UniversityRegistry) :
    List Call → UniversityRegistry
  | [] => s
  | c :: cs => runCalls owner (runCall owner s c) cs

/-- The records returned by the successful calls of a trace, in call
order. -/
def succRecords (owner : String) (s : UniversityRegistry) :
    List Call → List University
  | [] => []
  | c :: cs =>
    match add_university c.signer owner s c.name c.account_id with
    | Except.ok (u, s1) => u :: succRecords owner s1 cs
    | Except.error _ => succRecords owner s cs

/-- All records reachable through the name index: the concatenation of
every name's sequence. -/
def nameIndexRecords (s : UniversityRegistry) : List University :=
  (s.universities_by_name.map Prod.snd).flatten

/-- All records stored in the primary index. -/
def primaryRecords (s : UniversityRegistry) : List University :=
  s.universities_accounts.map Prod.snd

/-- Every primary-index entry is stored under its own account id. -/
def accountsCoherent (s : UniversityRegistry) : Prop :=
  ∀ p ∈ s.universities_accounts, p.2.account_id = p.1

/-- Every record in a name-index sequence carries that sequence's name. -/
def namesCoherent (s : UniversityRegistry) : Prop :=
  ∀ q ∈ s.universities_by_name, ∀ r ∈ q.2, r.name = q.1

theorem AMap.get_insert {α : Type} (m : List (String × α)) (k n : String) (v : α) :
    AMap.get (AMap.insert m k v) n = if k = n then some v else AMap.get m n := by
  induction m with
  | nil => by_cases h : k = n <;> simp [AMap.insert, AMap.get, h]
  | cons p rest ih =>
    obtain ⟨k1, v1⟩ := p
    by_cases h1 : k1 = k
    · subst h1
      by_cases h2 : k1 = n <;> simp [AMap.insert, AMap.get, h2]
    · by_cases h2 : k1 = n
      · subst h2
        have hk : ¬ k = k1 := fun h => h1 h.symm
        simp [AMap.insert, AMap.get, h1, hk]
      · simp [AMap.insert, AMap.get, h1, h2, ih]

theorem AMap.insert_of_get_none {α : Type} (m : List (String × α)) (k : String)
    (v : α) (h : AMap.get m k = none) : AMap.insert m k v = m ++ [(k, v)] := by
  induction m with
  | nil => simp [AMap.insert]
  | cons p rest ih =>
    obtain ⟨k1, v1⟩ := p
    by_cases h1 : k1 = k
    · simp [AMap.get, h1] at h
    · simp [AMap.get, h1] at h
      simp [AMap.insert, h1, ih h]

theorem AMap.get_append_single {α : Type} (m : List (String × α)) (k : String)
    (v : α) (h : AMap.get m k = none) : AMap.get (m ++ [(k, v)]) k = some v := by
  rw [← AMap.insert_of_get_none m k v h, AMap.get_insert]
  simp

theorem AMap.mem_of_get_eq_some {α : Type} (m : List (String × α)) (k : String)
    (v : α) (h : AMap.get m k = some v) : (k, v) ∈ m := by
  induction m with
  | nil => simp [AMap.get] at h
  | cons p rest ih =>
    obtain ⟨k1, v1⟩ := p
    by_cases h1 : k1 = k
    · subst h1
      simp [AMap.get] at h
      simp [h]
    · simp [AMap.get, h1] at h
      exact List.mem_cons_of_mem _ (ih h)

theorem AMap.mem_insert {α : Type} (m : List (String × α)) (k : String) (v : α)
    (q : String × α) (h : q ∈ AMap.insert m k v) : q = (k, v) ∨ q ∈ m := by
  induction m with
  | nil => simp [AMap.insert] at h; simp [h]
  | cons p rest ih =>
    obtain ⟨k1, v1⟩ := p
    by_cases h1 : k1 = k
    · simp [AMap.insert, h1] at h
      rcases h with h | h
      · exact Or.inl h
      · exact Or.inr (List.mem_cons_of_mem _ h)
    · simp [AMap.insert, h1] at h
      rcases h with h | h
      · exact Or.inr (by simp [h])
      · rcases ih h with h2 | h2
        · exact Or.inl h2
        · exact Or.inr (List.mem_cons_of_mem _ h2)

theorem AMap.not_mem_keys_of_get_none {α : Type} (m : List (String × α))
    (k : String) (h : AMap.get m k = none) : k ∉ m.map Prod.fst := by
  induction m with
  | nil => simp
  | cons p rest ih =>
    obtain ⟨k1, v1⟩ := p
    by_cases h1 : k1 = k
    · simp [AMap.get, h1] at h
    · simp [AMap.get, h1] at h
      simp [ih h]
      exact fun h2 => h1 h2.symm

theorem add_university_by_name_accounts (s : UniversityRegistry) (u : University) :
    (add_university_by_name s u).universities_accounts = s.universities_accounts := by
  unfold add_university_by_name
  cases AMap.get s.universities_by_name u.name <;> simp

theorem add_university_by_name_congr (s t : UniversityRegistry) (u : University)
    (h : s.universities_by_name = t.universities_by_name) :
    (add_university_by_name s u).universities_by_name =
      (add_university_by_name t u).universities_by_name := by
  unfold add_university_by_name
  rw [h]
  cases AMap.get t.universities_by_name u.name <;> simp

theorem get_by_name_after_add (s : UniversityRegistry) (u : University) (n : String) :
    AMap.get (add_university_by_name s u).universities_by_name n =
      if u.name = n then some (get_universities_by_name s u.name ++ [u])
      else AMap.get s.universities_by_name n := by
  unfold add_university_by_name get_universities_by_name
  rcases h : AMap.get s.universities_by_name u.name with _ | us <;>
    simp [h, AMap.get_insert]

theorem get_universities_by_name_after_add (s : UniversityRegistry)
    (u : University) (n : String) :
    get_universities_by_name (add_university_by_name s u) n =
      get_universities_by_name s n ++ (if u.name = n then [u] else []) := by
  by_cases h : u.name = n
  · subst h
    simp [get_universities_by_name, get_by_name_after_add]
  · simp [get_universities_by_name, get_by_name_after_add, h]

theorem flatten_insert_existing (m : List (String × List University)) (k : String)
    (us : List University) (u : University) (h : AMap.get m k = some us) :
    ((AMap.insert m k (us ++ [u])).map Prod.snd).flatten ~
      (m.map Prod.snd).flatten ++ [u] := by
  induction m with
  | nil => simp [AMap.get] at h
  | cons p rest ih =>
    obtain ⟨k1, v1⟩ := p
    by_cases h1 : k1 = k
    · subst h1
      simp [AMap.get] at h
      subst h
      simp only [AMap.insert, if_pos rfl, List.map_cons, List.flatten_cons]
      calc (v1 ++ [u]) ++ (rest.map Prod.snd).flatten
          = v1 ++ ([u] ++ (rest.map Prod.snd).flatten) := by simp
        _ ~ v1 ++ ((rest.map Prod.snd).flatten ++ [u]) :=
            List.Perm.append_left v1 (List.perm_append_comm)
        _ = (v1 ++ (rest.map Prod.snd).flatten) ++ [u] := by simp
    · simp [AMap.get, h1] at h
      simp only [AMap.insert, if_neg h1, List.map_cons, List.flatten_cons]
      calc v1 ++ ((AMap.insert rest k (us ++ [u])).map Prod.snd).flatten
          ~ v1 ++ ((rest.map Prod.snd).flatten ++ [u]) :=
            List.Perm.append_left v1 (ih h)
        _ = (v1 ++ (rest.map Prod.snd).flatten) ++ [u] := by simp

theorem nameIndexRecords_after_add (s : UniversityRegistry) (u : University) :
    nameIndexRecords (add_university_by_name s u) ~ nameIndexRecords s ++ [u] := by
  unfold nameIndexRecords add_university_by_name
  rcases h : AMap.get s.universities_by_name u.name with _ | us
  · rw [AMap.insert_of_get_none _ _ _ h]
    simp
  · exact flatten_insert_existing s.universities_by_name u.name us u h

/-- Inversion of a successful `add_university` call: the caller was the
owner, the account id was fresh, the returned record carries the call's
arguments, the primary index gains exactly that pair at the end, and the
name index is updated by `add_university_by_name`. -/
theorem add_university_ok_inv (signer owner n a : String) (s : UniversityRegistry)
    (u : University) (s1 : UniversityRegistry)
    (h : add_university signer owner s n a = Except.ok (u, s1)) :
    signer = owner ∧
    AMap.get s.universities_accounts a = none ∧
    u = ⟨n, a⟩ ∧
    s1.universities_accounts = s.universities_accounts ++ [(a, ⟨n, a⟩)] ∧
    s1.universities_by_name =
      (add_university_by_name s ⟨n, a⟩).universities_by_name := by
  unfold add_university at h
  split at h
  case isTrue hs =>
    split at h
    case isTrue hg1 =>
      have hg : AMap.get s.universities_accounts a = none :=
        Option.isNone_iff_eq_none.mp hg1
      simp only [Except.ok.injEq, Prod.mk.injEq] at h
      obtain ⟨hu, hstate⟩ := h
      subst hu
      subst hstate
      refine ⟨hs, hg, rfl, ?_, ?_⟩
      · rw [add_university_by_name_accounts]
        exact AMap.insert_of_get_none s.universities_accounts a ⟨n, a⟩ hg
      · exact add_university_by_name_congr _ _ _ rfl
    case isFalse hg1 => simp at h
  case isFalse hs => simp at h

/-- Inversion of a failed `add_university` call: the state argument is
not consumed, and the error pins down which check failed. -/
theorem add_university_error_inv (signer owner n a : String)
    (s : UniversityRegistry) (e : RegError)
    (h : add_university signer owner s n a = Except.error e) :
    (e = RegError.permissionDenied ∧ ¬ signer = owner) ∨
    (e = RegError.duplicateAccount ∧ signer = owner ∧
      ¬ AMap.get s.universities_accounts a = none) := by
  unfold add_university at h
  split at h
  case isTrue hs =>
    split at h
    case isTrue hg1 => simp at h
    case isFalse hg1 =>
      have hg : ¬ AMap.get s.universities_accounts a = none := by
        intro h2
        exact hg1 (by simp [h2])
      simp only [Except.error.injEq] at h
      exact Or.inr ⟨h.symm, hs, hg⟩
  case isFalse hs =>
    simp only [Except.error.injEq] at h
    exact Or.inl ⟨h.symm, hs⟩

theorem runCall_of_error (owner : String) (s : UniversityRegistry) (c : Call)
    (e : RegError)
    (h : add_university c.signer owner s c.name c.account_id = Except.error e) :
    runCall owner s c = s := by
  simp [runCall, h]

theorem runCall_of_ok (owner : String) (s : UniversityRegistry) (c : Call)
    (u : University) (s1 : UniversityRegistry)
    (h : add_university c.signer owner s c.name c.account_id = Except.ok (u, s1)) :
    runCall owner s c = s1 := by
  simp [runCall, h]

theorem get_universities_by_name_congr (s t : UniversityRegistry) (n : String)
    (h : s.universities_by_name = t.universities_by_name) :
    get_universities_by_name s n = get_universities_by_name t n := by
  unfold get_universities_by_name
  rw [h]

theorem nameIndexRecords_congr (s t : UniversityRegistry)
    (h : s.universities_by_name = t.universities_by_name) :
    nameIndexRecords s = nameIndexRecords t := by
  unfold nameIndexRecords
  rw [h]

/-- The primary index after a trace is the starting index followed by
one pair per successful call, in call order. -/
theorem runCalls_accounts (owner : String) (cs : List Call)
    (s : UniversityRegistry) :
    (runCalls owner s cs).universities_accounts =
      s.universities_accounts ++
        (succRecords owner s cs).map (fun u => (u.account_id, u)) := by
  induction cs generalizing s with
  | nil => simp [runCalls, succRecords]
  | cons c cs ih =>
    rcases e : add_university c.signer owner s c.name c.account_id with e1 | ⟨u, s1⟩
    · simp only [runCalls, runCall_of_error owner s c e1 e, succRecords, e]
      exact ih s
    · obtain ⟨hs, hg, hu, hacc, hby⟩ := add_university_ok_inv _ _ _ _ _ _ _ e
      subst hu
      simp only [runCalls, runCall_of_ok owner s c _ s1 e, succRecords, e]
      rw [ih s1, hacc]
      simp

/-- The name-index view after a trace: whatever was stored before,
followed by the successful records carrying that name, in call order. -/
theorem runCalls_by_name (owner : String) (cs : List Call)
    (s : UniversityRegistry) (n : String) :
    get_universities_by_name (runCalls owner s cs) n =
      get_universities_by_name s n ++
        (succRecords owner s cs).filter (fun u => u.name == n) := by
  induction cs generalizing s with
  | nil => simp [runCalls, succRecords]
  | cons c cs ih =>
    rcases e : add_university c.signer owner s c.name c.account_id with e1 | ⟨u, s1⟩
    · simp only [runCalls, runCall_of_error owner s c e1 e, succRecords, e]
      exact ih s
    · obtain ⟨hs, hg, hu, hacc, hby⟩ := add_university_ok_inv _ _ _ _ _ _ _ e
      subst hu
      simp only [runCalls, runCall_of_ok owner s c _ s1 e, succRecords, e]
      rw [ih s1]
      have h1 : get_universities_by_name s1 n =
          get_universities_by_name s n ++
            (if (⟨c.name, c.account_id⟩ : University).name = n
              then [⟨c.name, c.account_id⟩] else []) := by
        rw [get_universities_by_name_congr s1
            (add_university_by_name s ⟨c.name, c.account_id⟩) n hby]
        exact get_universities_by_name_after_add s _ n
      rw [h1]
      by_cases hn : c.name = n
      · simp [List.filter_cons, hn]
      · simp [List.filter_cons, hn]

/-- Cross-index preservation: a trace keeps the name-index records a
permutation of the primary-index records. -/
theorem runCalls_cross (owner : String) (cs : List Call) (s : UniversityRegistry)
    (h : nameIndexRecords s ~ primaryRecords s) :
    nameIndexRecords (runCalls owner s cs) ~ primaryRecords (runCalls owner s cs) := by
  induction cs generalizing s with
  | nil => simpa [runCalls]
  | cons c cs ih =>
    rcases e : add_university c.signer owner s c.name c.account_id with e1 | ⟨u, s1⟩
    · simp only [runCalls, runCall_of_error owner s c e1 e]
      exact ih s h
    · obtain ⟨hs, hg, hu, hacc, hby⟩ := add_university_ok_inv _ _ _ _ _ _ _ e
      subst hu
      simp only [runCalls, runCall_of_ok owner s c _ s1 e]
      apply ih
      have h2 : nameIndexRecords s1 =
          nameIndexRecords (add_university_by_name s ⟨c.name, c.account_id⟩) :=
        nameIndexRecords_congr _ _ hby
      have h3 : primaryRecords s1 =
          primaryRecords s ++ [⟨c.name, c.account_id⟩] := by
        unfold primaryRecords
        rw [hacc]
        simp
      rw [h2, h3]
      exact (nameIndexRecords_after_add s _).trans (h.append_right _)

/-- A trace never duplicates a key in the primary index. -/
theorem runCalls_keys_nodup (owner : String) (cs : List Call)
    (s : UniversityRegistry)
    (h : (s.universities_accounts.map Prod.fst).Nodup) :
    ((runCalls owner s cs).universities_accounts.map Prod.fst).Nodup := by
  induction cs generalizing s with
  | nil => simpa [runCalls]
  | cons c cs ih =>
    rcases e : add_university c.signer owner s c.name c.account_id with e1 | ⟨u, s1⟩
    · simp only [runCalls, runCall_of_error owner s c e1 e]
      exact ih s h
    · obtain ⟨hs, hg, hu, hacc, hby⟩ := add_university_ok_inv _ _ _ _ _ _ _ e
      simp only [runCalls, runCall_of_ok owner s c u s1 e]
      apply ih
      have ha := AMap.not_mem_keys_of_get_none s.universities_accounts c.account_id hg
      rw [hacc]
      simp [List.nodup_append, h, ha]

theorem namesCoherent_after_add (s : UniversityRegistry) (u : University)
    (h : namesCoherent s) : namesCoherent (add_university_by_name s u) := by
  intro q hq r hr
  unfold add_university_by_name at hq
  rcases hget : AMap.get s.universities_by_name u.name with _ | us
  · simp only [hget] at hq
    rcases AMap.mem_insert _ _ _ _ hq with h1 | h1
    · subst h1
      simp at hr
      simp [hr]
    · exact h q h1 r hr
  · simp only [hget] at hq
    rcases AMap.mem_insert _ _ _ _ hq with h1 | h1
    · subst h1
      simp only at hr
      rcases List.mem_append.mp hr with h2 | h2
      · exact h (u.name, us) (AMap.mem_of_get_eq_some _ _ _ hget) r h2
      · simp at h2
        simp [h2]
    · exact h q h1 r hr

/-- A trace preserves both coherence invariants. -/
theorem runCalls_coherent (owner : String) (cs : List Call)
    (s : UniversityRegistry)
    (h1 : accountsCoherent s) (h2 : namesCoherent s) :
    accountsCoherent (runCalls owner s cs) ∧
      namesCoherent (runCalls owner s cs) := by
  induction cs generalizing s with
  | nil => exact ⟨h1, h2⟩
  | cons c cs ih =>
    rcases e : add_university c.signer owner s c.name c.account_id with e1 | ⟨u, s1⟩
    · simp only [runCalls, runCall_of_error owner s c e1 e]
      exact ih s h1 h2
    · obtain ⟨hs, hg, hu, hacc, hby⟩ := add_university_ok_inv _ _ _ _ _ _ _ e
      subst hu
      simp only [runCalls, runCall_of_ok owner s c _ s1 e]
      apply ih
      · intro p hp
        rw [hacc] at hp
        rcases List.mem_append.mp hp with hp1 | hp1
        · exact h1 p hp1
        · simp at hp1
          simp [hp1]
      · unfold namesCoherent
        rw [hby]
        exact namesCoherent_after_add s _ h2

/-- Success shape of an owner-issued `add_university` on a fresh
account id. -/
theorem add_university_fresh (owner : String) (s : UniversityRegistry)
    (n a : String) (h : AMap.get s.universities_accounts a = none) :
    ∃ s1, add_university owner owner s n a = Except.ok (⟨n, a⟩, s1) ∧
      get_university_by_account_id s1 a = some ⟨n, a⟩ := by
  have heq : add_university owner owner s n a =
      Except.ok (⟨n, a⟩,
        add_university_by_name
          { s with universities_accounts :=
              AMap.insert s.universities_accounts a ⟨n, a⟩ } ⟨n, a⟩) := by
    unfold add_university
    rw [if_pos rfl, h]
    rfl
  refine ⟨_, heq, ?_⟩
  unfold get_university_by_account_id
  rw [add_university_by_name_accounts]
  show AMap.get (AMap.insert s.universities_accounts a ⟨n, a⟩) a = some ⟨n, a⟩
  rw [AMap.get_insert]
  simp

theorem add_university_denied (signer owner n a : String)
    (s : UniversityRegistry) (h : ¬ signer = owner) :
    add_university signer owner s n a = Except.error RegError.permissionDenied := by
  unfold add_university
  rw [if_neg h]

theorem add_university_duplicate (owner n a : String) (s : UniversityRegistry)
    (h : ¬ AMap.get s.universities_accounts a = none) :
    add_university owner owner s n a = Except.error RegError.duplicateAccount := by
  rcases hg : AMap.get s.universities_accounts a with _ | r
  · exact absurd hg h
  · unfold add_university
    rw [if_pos rfl, hg]
    rfl

/-- Claim C1: an owner-issued `register(n, a)` with `a` not yet in the
primary index succeeds, returns `Record{n, a}`, and afterwards
`get_by_account(a)` returns `Some(Record{n, a})`. -/
theorem C1_owner_register_fresh (owner : String) (s : UniversityRegistry)
    (n a : String) (h : AMap.get s.universities_accounts a = none) :
    ∃ s1, add_university owner owner s n a = Except.ok (⟨n, a⟩, s1) ∧
      get_university_by_account_id s1 a = some ⟨n, a⟩ :=
  add_university_fresh owner s n a h

theorem C1_witness :
    AMap.get UniversityRegistry.empty.universities_accounts "uni_id" = none ∧
    ∃ s1, add_university "admin" "admin" UniversityRegistry.empty "UMA" "uni_id" =
        Except.ok (⟨"UMA", "uni_id"⟩, s1) ∧
      get_university_by_account_id s1 "uni_id" = some ⟨"UMA", "uni_id"⟩ :=
  ⟨rfl, C1_owner_register_fresh "admin" UniversityRegistry.empty "UMA" "uni_id" rfl⟩

/-- Claim C2: in every state reachable from the empty registry by
`register` calls, the multiset of records obtained by concatenating all
name-index sequences equals the multiset of records in the primary
index. -/
theorem C2_cross_index_invariant (owner : String) (cs : List Call) :
    (nameIndexRecords (runCalls owner UniversityRegistry.empty cs) :
        Multiset University) =
      (primaryRecords (runCalls owner UniversityRegistry.empty cs) :
        Multiset University) := by
  rw [Multiset.coe_eq_coe]
  exact runCalls_cross owner cs UniversityRegistry.empty (List.Perm.refl _)

/-- Claim C3: a `register` call whose signer is not the owner fails with
`PermissionDenied` and leaves the state unchanged, for any arguments and
any prior state. -/
theorem C3_non_owner_denied (signer owner n a : String) (s : UniversityRegistry)
    (h : signer ≠ owner) :
    add_university signer owner s n a = Except.error RegError.permissionDenied ∧
      runCall owner s ⟨signer, n, a⟩ = s := by
  have h1 := add_university_denied signer owner n a s h
  exact ⟨h1, runCall_of_error owner s ⟨signer, n, a⟩ _ h1⟩

theorem C3_witness :
    ("user" : String) ≠ "admin" ∧
      (add_university "user" "admin" UniversityRegistry.empty "UMA" "uni_id" =
          Except.error RegError.permissionDenied ∧
        runCall "admin" UniversityRegistry.empty ⟨"user", "UMA", "uni_id"⟩ =
          UniversityRegistry.empty) :=
  ⟨by decide,
    C3_non_owner_denied "user" "admin" "UMA" "uni_id" UniversityRegistry.empty
      (by decide)⟩

/-- Claim C4: an owner-issued `register(n, a)` with `a` already present
fails with `DuplicateAccount`, leaves the whole state unchanged, and the
record previously stored under `a` is still there. -/
theorem C4_duplicate_rejected (owner n a : String) (s : UniversityRegistry)
    (r : University) (h : AMap.get s.universities_accounts a = some r) :
    add_university owner owner s n a = Except.error RegError.duplicateAccount ∧
      runCall owner s ⟨owner, n, a⟩ = s ∧
      get_university_by_account_id s a = some r := by
  have h1 := add_university_duplicate owner n a s (by simp [h])
  exact ⟨h1, runCall_of_error owner s ⟨owner, n, a⟩ _ h1, h⟩

theorem C4_witness :
    AMap.get (UniversityRegistry.mk [("uni_id", ⟨"UMA", "uni_id"⟩)]
        [("UMA", [⟨"UMA", "uni_id"⟩])]).universities_accounts "uni_id" =
      some ⟨"UMA", "uni_id"⟩ ∧
    (add_university "admin" "admin"
        (UniversityRegistry.mk [("uni_id", ⟨"UMA", "uni_id"⟩)]
          [("UMA", [⟨"UMA", "uni_id"⟩])]) "Other" "uni_id" =
        Except.error RegError.duplicateAccount ∧
      runCall "admin"
        (UniversityRegistry.mk [("uni_id", ⟨"UMA", "uni_id"⟩)]
          [("UMA", [⟨"UMA", "uni_id"⟩])]) ⟨"admin", "Other", "uni_id"⟩ =
        UniversityRegistry.mk [("uni_id", ⟨"UMA", "uni_id"⟩)]
          [("UMA", [⟨"UMA", "uni_id"⟩])] ∧
      get_university_by_account_id
        (UniversityRegistry.mk [("uni_id", ⟨"UMA", "uni_id"⟩)]
          [("UMA", [⟨"UMA", "uni_id"⟩])]) "uni_id" =
        some ⟨"UMA", "uni_id"⟩) :=
  ⟨rfl, C4_duplicate_rejected "admin" "Other" "uni_id" _ ⟨"UMA", "uni_id"⟩ rfl⟩

/-- Claim C5: after any trace from the empty registry,
`get_by_name(n)` returns exactly the records of the successful
registrations that used name `n`, in call order, and its length is the
number of those registrations. -/
theorem C5_by_name_exact (owner n : String) (cs : List Call) :
    get_universities_by_name (runCalls owner UniversityRegistry.empty cs) n =
      (succRecords owner UniversityRegistry.empty cs).filter
        (fun u => u.name == n) ∧
    (get_universities_by_name (runCalls owner UniversityRegistry.empty cs) n).length =
      ((succRecords owner UniversityRegistry.empty cs).filter
        (fun u => u.name == n)).length := by
  have h := runCalls_by_name owner cs UniversityRegistry.empty n
  have h0 : get_universities_by_name UniversityRegistry.empty n = [] := rfl
  rw [h0, List.nil_append] at h
  exact ⟨h, by rw [h]⟩

/-- Claim C6 counterexample: the code performs no validation, so the
owner can register with empty name and empty account id, after which a
record whose name and account id are both empty is stored in the
primary index. -/
theorem C6_counterexample :
    (⟨"", ""⟩ : University) ∈
        primaryRecords (runCalls "owner" UniversityRegistry.empty
          [⟨"owner", "", ""⟩]) ∧
      (⟨"", ""⟩ : University).name = "" ∧
      (⟨"", ""⟩ : University).account_id = "" := by
  refine ⟨?_, rfl, rfl⟩
  decide

/-- Claim C6 (amended): every record stored in either index is the
record of a successful registration, carrying exactly that call's
arguments; no non-emptiness of the fields is enforced. -/
theorem C6_stored_records_are_registrations (owner : String) (cs : List Call) :
    primaryRecords (runCalls owner UniversityRegistry.empty cs) =
      succRecords owner UniversityRegistry.empty cs ∧
    ∀ u ∈ nameIndexRecords (runCalls owner UniversityRegistry.empty cs),
      u ∈ succRecords owner UniversityRegistry.empty cs := by
  have h1 : primaryRecords (runCalls owner UniversityRegistry.empty cs) =
      succRecords owner UniversityRegistry.empty cs := by
    unfold primaryRecords
    rw [runCalls_accounts]
    simp only [UniversityRegistry.empty, List.nil_append, List.map_map]
    rw [show (Prod.snd ∘ fun u : University => (u.account_id, u)) = id from rfl,
      List.map_id]
  refine ⟨h1, ?_⟩
  intro u hu
  have h2 := runCalls_cross owner cs UniversityRegistry.empty (List.Perm.refl _)
  rw [← h1]
  exact h2.mem_iff.mp hu

theorem C6_witness :
    (⟨"UMA", "u1"⟩ : University) ∈
        nameIndexRecords (runCalls "o" UniversityRegistry.empty
          [⟨"o", "UMA", "u1"⟩]) ∧
      (⟨"UMA", "u1"⟩ : University) ∈
        succRecords "o" UniversityRegistry.empty [⟨"o", "UMA", "u1"⟩] :=
  ⟨by decide,
    (C6_stored_records_are_registrations "o" [⟨"o", "UMA", "u1"⟩]).2
      ⟨"UMA", "u1"⟩ (by decide)⟩

/-- Claim C7: after any trace from the empty registry,
`get_all_universities()` holds exactly the `(account_id, record)` pairs
of the successful registrations, without duplicates; the enumeration
order is not part of the claim. -/
theorem C7_get_all_exact (owner : String) (cs : List Call) :
    (get_all_universities (runCalls owner UniversityRegistry.empty cs)).Nodup ∧
    ∀ p : String × University,
      p ∈ get_all_universities (runCalls owner UniversityRegistry.empty cs) ↔
        p ∈ (succRecords owner UniversityRegistry.empty cs).map
              (fun u => (u.account_id, u)) := by
  have hacc : get_all_universities (runCalls owner UniversityRegistry.empty cs) =
      (succRecords owner UniversityRegistry.empty cs).map
        (fun u => (u.account_id, u)) := by
    unfold get_all_universities
    rw [runCalls_accounts]
    rfl
  constructor
  · have hk := runCalls_keys_nodup owner cs UniversityRegistry.empty
      (by simp [UniversityRegistry.empty])
    exact hk.of_map
  · intro p
    rw [hacc]

/-- Claim C8: reads are total; an absent name yields the empty sequence
and an absent account id yields `none`. -/
theorem C8_reads_total (s : UniversityRegistry) (n a : String)
    (h1 : AMap.get s.universities_by_name n = none)
    (h2 : AMap.get s.universities_accounts a = none) :
    get_universities_by_name s n = [] ∧
      get_university_by_account_id s a = none := by
  constructor
  · unfold get_universities_by_name
    rw [h1]
  · exact h2

theorem C8_witness :
    AMap.get UniversityRegistry.empty.universities_by_name "NOPE" = none ∧
    AMap.get UniversityRegistry.empty.universities_accounts "ghost" = none ∧
    (get_universities_by_name UniversityRegistry.empty "NOPE" = [] ∧
      get_university_by_account_id UniversityRegistry.empty "ghost" = none) :=
  ⟨rfl, rfl, C8_reads_total UniversityRegistry.empty "NOPE" "ghost" rfl rfl⟩

/-- Claim C9: key-value coherence in every reachable state: each
primary-index entry is keyed by its record's account id, and each record
in a name-index sequence carries that sequence's name. -/
theorem C9_key_value_coherence (owner : String) (cs : List Call) :
    accountsCoherent (runCalls owner UniversityRegistry.empty cs) ∧
      namesCoherent (runCalls owner UniversityRegistry.empty cs) :=
  runCalls_coherent owner cs UniversityRegistry.empty
    (fun p hp => absurd hp (List.not_mem_nil p))
    (fun q hq => absurd hq (List.not_mem_nil q))

theorem C9_witness :
    (⟨"UMA", "u1"⟩ : University).account_id = "u1" :=
  (C9_key_value_coherence "o" [⟨"o", "UMA", "u1"⟩]).1
    ("u1", ⟨"UMA", "u1"⟩) (by decide)

/-- Claim C10: `add_university` fails exactly when the signer is not
the owner (then `PermissionDenied`) or the account id is already taken
(then `DuplicateAccount`); no validation is performed on the text
arguments, so an owner-issued call with any strings — including empty
ones — and a fresh account id succeeds and stores the record with
exactly those fields. -/
theorem C10_raises_iff (signer owner n a : String) (s : UniversityRegistry) :
    (add_university signer owner s n a = Except.error RegError.permissionDenied ↔
      ¬ signer = owner) ∧
    (add_university signer owner s n a = Except.error RegError.duplicateAccount ↔
      (signer = owner ∧ ¬ AMap.get s.universities_accounts a = none)) ∧
    ((∃ s1, add_university signer owner s n a = Except.ok (⟨n, a⟩, s1) ∧
        get_university_by_account_id s1 a = some ⟨n, a⟩) ↔
      (signer = owner ∧ AMap.get s.universities_accounts a = none)) := by
  refine ⟨⟨?_, ?_⟩, ⟨?_, ?_⟩, ⟨?_, ?_⟩⟩
  · intro h
    rcases add_university_error_inv _ _ _ _ _ _ h with ⟨_, hns⟩ | ⟨he, _⟩
    · exact hns
    · exact RegError.noConfusion he
  · intro h
    exact add_university_denied signer owner n a s h
  · intro h
    rcases add_university_error_inv _ _ _ _ _ _ h with ⟨he, _⟩ | ⟨_, hs, hg⟩
    · exact RegError.noConfusion he
    · exact ⟨hs, hg⟩
  · rintro ⟨hs, hg⟩
    subst hs
    exact add_university_duplicate signer n a s hg
  · rintro ⟨s1, hok, _⟩
    obtain ⟨hs, hg, _, _, _⟩ := add_university_ok_inv _ _ _ _ _ _ _ hok
    exact ⟨hs, hg⟩
  · rintro ⟨hs, hg⟩
    subst hs
    exact add_university_fresh signer s n a hg

theorem C10_witness :
    ∃ s1, add_university "owner" "owner" UniversityRegistry.empty "" "" =
        Except.ok (⟨"", ""⟩, s1) ∧
      get_university_by_account_id s1 "" = some ⟨"", ""⟩ :=
  (C10_raises_iff "owner" "owner" "" "" UniversityRegistry.empty).2.2.mpr
    ⟨rfl, rfl⟩

end FenixRegistry
